import Mathlib

/-!
Verification of the Bento Blocks rules engine (src/web-app/bento_blocks.js)
against its natural-language specification.

The JavaScript engine is embedded shallowly: every function below mirrors one
function of the source file, with boards, players, pieces and moves as plain
Lean structures, JS numbers as Int or Nat, the grid as a list of rows, and the
throwing functions (startGame, placePiece) returning Except.  The wall clock
(Date.now) is passed explicitly as the `now` argument of placePiece.
-/

namespace BentoBlocks

/-- Game status, mirroring the GAME_STATUS string constants of the source. -/
inductive Status where
  | waiting
  | inProgress
  | finished
deriving DecidableEq, Repr

/-- A piece, mirroring the objects produced by getAllPieces and manipulated by
the UI: catalog id, base shape as ordered (row, col) offsets, used flag,
quarter-turn count and flip flag. -/
structure Piece where
  id : String
  shape : List (Int × Int)
  used : Bool
  rotation : Nat
  flipped : Bool
deriving DecidableEq, Repr

/-- A player, mirroring the player objects of createBoard. -/
structure Player where
  id : Nat
  score : Nat
  pieces : List Piece
  color : String
deriving DecidableEq, Repr

/-- A move record, mirroring the move object built by placePiece.  The
timestamp field holds the Date.now() value passed to placePiece. -/
structure Move where
  playerId : Nat
  pieceId : String
  position : Int × Int
  shape : List (Int × Int)
  timestamp : Int
deriving DecidableEq, Repr

/-- The board, mirroring the object of createBoard: grid of cell owners
(0 is empty), size, ordered player list, current player id, status, move
history and last move. -/
structure Board where
  grid : List (List Nat)
  size : Nat
  players : List Player
  currentPlayer : Nat
  status : Status
  moveHistory : List Move
  lastMove : Option Move
deriving DecidableEq, Repr

/-- The 21-entry PIECE_SHAPES catalog, in the insertion order of the source
object literal. -/
def PIECE_SHAPES : List (String × List (Int × Int)) :=
  [ ("I1", [(0, 0)]),
    ("I2", [(0, 0), (1, 0)]),
    ("I3", [(0, 0), (1, 0), (2, 0)]),
    ("L3", [(0, 0), (1, 0), (0, 1)]),
    ("I4", [(0, 0), (1, 0), (2, 0), (3, 0)]),
    ("L4", [(0, 0), (1, 0), (2, 0), (0, 1)]),
    ("O4", [(0, 0), (1, 0), (0, 1), (1, 1)]),
    ("S4", [(0, 0), (1, 0), (1, 1), (2, 1)]),
    ("T4", [(0, 0), (1, 0), (2, 0), (1, 1)]),
    ("I5", [(0, 0), (1, 0), (2, 0), (3, 0), (4, 0)]),
    ("L5", [(0, 0), (1, 0), (2, 0), (3, 0), (0, 1)]),
    ("N5", [(0, 0), (1, 0), (1, 1), (2, 1), (3, 1)]),
    ("P5", [(0, 0), (1, 0), (0, 1), (1, 1), (0, 2)]),
    ("T5", [(0, 0), (1, 0), (2, 0), (1, 1), (1, 2)]),
    ("U5", [(0, 0), (2, 0), (0, 1), (1, 1), (2, 1)]),
    ("V5", [(0, 0), (0, 1), (0, 2), (1, 2), (2, 2)]),
    ("W5", [(0, 0), (0, 1), (1, 1), (1, 2), (2, 2)]),
    ("X5", [(1, 0), (0, 1), (1, 1), (2, 1), (1, 2)]),
    ("Y5", [(0, 0), (1, 0), (1, 1), (1, 2), (1, 3)]),
    ("Z5", [(0, 0), (1, 0), (1, 1), (1, 2), (2, 2)]),
    ("F5", [(1, 0), (2, 0), (0, 1), (1, 1), (1, 2)]) ]

/-- getAllPieces: one unused piece per catalog entry. -/
def getAllPieces : List Piece :=
  PIECE_SHAPES.map fun e =>
    { id := e.1, shape := e.2, used := false, rotation := 0, flipped := false }

/-- BOARD_SIZE constant of the source. -/
def BOARD_SIZE : Nat := 20

/-- createBoard: empty 20 by 20 grid, four players with the full catalog,
status waiting. -/
def createBoard : Board :=
  { grid := List.replicate BOARD_SIZE (List.replicate BOARD_SIZE 0),
    size := BOARD_SIZE,
    players :=
      [ { id := 1, score := 0, pieces := getAllPieces, color := "red" },
        { id := 2, score := 0, pieces := getAllPieces, color := "blue" },
        { id := 3, score := 0, pieces := getAllPieces, color := "yellow" },
        { id := 4, score := 0, pieces := getAllPieces, color := "purple" } ],
    currentPlayer := 1,
    status := Status.waiting,
    moveHistory := [],
    lastMove := none }

/-- startGame: rejects player counts outside 2..4, otherwise truncates the
player list, resets the current player and sets the status to in progress. -/
def startGame (b : Board) (playerCount : Nat) : Except String Board :=
  if playerCount < 2 || playerCount > 4 then
    Except.error "Invalid board or player count"
  else
    Except.ok { b with
      players := b.players.take playerCount,
      currentPlayer := 1,
      status := Status.inProgress }

/-- isValidPosition: both coordinates within [0, board.size). -/
def isValidPosition (row col : Int) (b : Board) : Bool :=
  decide (0 ≤ row) && decide (row < (b.size : Int)) &&
  decide (0 ≤ col) && decide (col < (b.size : Int))

/-- Reading a grid cell, as the source expression board.grid[row][col]; the
defaults are never reached under the isValidPosition guards that precede
every read in the source. -/
def gridGet (g : List (List Nat)) (row col : Int) : Nat :=
  (g.getD row.toNat []).getD col.toNat 0

/-- isCellEmpty: false out of bounds, otherwise owner equal to 0. -/
def isCellEmpty (row col : Int) (b : Board) : Bool :=
  if isValidPosition row col b then gridGet b.grid row col == 0 else false

/-- Math.min over a coordinate list; the source only applies it to nonempty
lists (an empty shape maps to an empty shape before the minimum is used). -/
def intMin : List Int → Int
  | [] => 0
  | x :: xs => xs.foldl min x

/-- rotatePiece: 90 degrees clockwise, (x, y) to (y, -x), then shift so both
minima become 0. -/
def rotatePiece (shape : List (Int × Int)) : List (Int × Int) :=
  let rotated := shape.map fun d => (d.2, -d.1)
  let minX := intMin (rotated.map Prod.fst)
  let minY := intMin (rotated.map Prod.snd)
  rotated.map fun d => (d.1 - minX, d.2 - minY)

/-- flipPiece: (x, y) to (-x, y), then the same normalization. -/
def flipPiece (shape : List (Int × Int)) : List (Int × Int) :=
  let flipped := shape.map fun d => (-d.1, d.2)
  let minX := intMin (flipped.map Prod.fst)
  let minY := intMin (flipped.map Prod.snd)
  flipped.map fun d => (d.1 - minX, d.2 - minY)

/-- The rotation loop of getTransformedShape: rotatePiece applied n times. -/
def applyRotations : Nat → List (Int × Int) → List (Int × Int)
  | 0, s => s
  | n + 1, s => applyRotations n (rotatePiece s)

/-- getTransformedShape: base shape, rotated piece.rotation times, then
flipped once iff piece.flipped. -/
def getTransformedShape (p : Piece) : List (Int × Int) :=
  if p.flipped then flipPiece (applyRotations p.rotation p.shape)
  else applyRotations p.rotation p.shape

/-- touchesCorner: some absolute cell of the shape equals one of the four
board corners. -/
def touchesCorner (shape : List (Int × Int)) (row col : Int) (b : Board) : Bool :=
  let corners : List (Int × Int) :=
    [(0, 0), (0, (b.size : Int) - 1), ((b.size : Int) - 1, 0),
     ((b.size : Int) - 1, (b.size : Int) - 1)]
  shape.any fun d => corners.any fun c => (row + d.1 == c.1) && (col + d.2 == c.2)

/-- touchesPlayerCorner: some in-bounds diagonal neighbor of (row, col) is
owned by playerId. -/
def touchesPlayerCorner (row col : Int) (b : Board) (playerId : Nat) : Bool :=
  ([(-1, -1), (-1, 1), (1, -1), (1, 1)] : List (Int × Int)).any fun d =>
    isValidPosition (row + d.1) (col + d.2) b &&
    (gridGet b.grid (row + d.1) (col + d.2) == playerId)

/-- touchesPlayerEdge: some in-bounds orthogonal neighbor of (row, col) is
owned by playerId. -/
def touchesPlayerEdge (row col : Int) (b : Board) (playerId : Nat) : Bool :=
  ([(-1, 0), (1, 0), (0, -1), (0, 1)] : List (Int × Int)).any fun d =>
    isValidPosition (row + d.1) (col + d.2) b &&
    (gridGet b.grid (row + d.1) (col + d.2) == playerId)

/-- isValidPlacement: first piece must touch a board corner; later pieces must
corner-touch and must not edge-touch the cells of the same player.  The source
dereferences the player unconditionally and is only called once the player was
found; the none branch is unreachable from canPlacePiece. -/
def isValidPlacement (b : Board) (shape : List (Int × Int)) (row col : Int)
    (playerId : Nat) : Bool :=
  match b.players.find? (fun pl => pl.id == playerId) with
  | none => false
  | some player =>
    if (player.pieces.filter (fun p => p.used)).length = 0 then
      touchesCorner shape row col b
    else
      (shape.any fun d => touchesPlayerCorner (row + d.1) (col + d.2) b playerId) &&
      !(shape.any fun d => touchesPlayerEdge (row + d.1) (col + d.2) b playerId)

/-- canPlacePiece: reject used pieces and unknown players, require every
absolute cell in bounds and empty, then apply isValidPlacement. -/
def canPlacePiece (b : Board) (p : Piece) (row col : Int) (playerId : Nat) : Bool :=
  if p.used then false
  else
    match b.players.find? (fun pl => pl.id == playerId) with
    | none => false
    | some _ =>
      if (getTransformedShape p).all (fun d =>
          isValidPosition (row + d.1) (col + d.2) b &&
          isCellEmpty (row + d.1) (col + d.2) b) then
        isValidPlacement b (getTransformedShape p) row col playerId
      else false

/-- Array.prototype.indexOf as used by getNextPlayer: index of the first
occurrence, or -1 when absent. -/
def jsIndexOf (a : Nat) : List Nat → Int
  | [] => -1
  | x :: xs =>
    if x == a then 0
    else
      let r := jsIndexOf a xs
      if r = -1 then -1 else r + 1

/-- getNextPlayer: round robin over the ordered id list via
(indexOf + 1) mod length. -/
def getNextPlayer (b : Board) (currentPlayerId : Nat) : Nat :=
  let playerIds := b.players.map (fun p => p.id)
  let nextIndex : Int := (jsIndexOf currentPlayerId playerIds + 1) % (playerIds.length : Int)
  playerIds.getD nextIndex.toNat 0

/-- One grid assignment newGrid[row][col] = v of the stamping loop. -/
def setCell (g : List (List Nat)) (row col : Int) (v : Nat) : List (List Nat) :=
  g.set row.toNat ((g.getD row.toNat []).set col.toNat v)

/-- The stamping loop of placePiece over the resolved shape. -/
def stampShape (g : List (List Nat)) (shape : List (Int × Int)) (row col : Int)
    (v : Nat) : List (List Nat) :=
  shape.foldl (fun acc d => setCell acc (row + d.1) (col + d.2) v) g

/-- placePiece: re-validate via canPlacePiece, then build the new board with
the stamped grid, the piece (matched by id) marked used, the score increased
by the resolved shape length, the move appended and set as last move, and the
current player advanced. -/
def placePiece (b : Board) (p : Piece) (row col : Int) (playerId : Nat)
    (now : Int) : Except String Board :=
  if canPlacePiece b p row col playerId then
    Except.ok { b with
      grid := stampShape b.grid (getTransformedShape p) row col playerId,
      players := b.players.map fun player =>
        if player.id == playerId then
          { player with
            pieces := player.pieces.map fun q =>
              if q.id == p.id then { q with used := true } else q,
            score := player.score + (getTransformedShape p).length }
        else player,
      moveHistory := b.moveHistory ++
        [{ playerId := playerId, pieceId := p.id, position := (row, col),
           shape := getTransformedShape p, timestamp := now }],
      lastMove := some
        { playerId := playerId, pieceId := p.id, position := (row, col),
          shape := getTransformedShape p, timestamp := now },
      currentPlayer := getNextPlayer b playerId }
  else Except.error "Invalid piece placement"

/-! ### Spec-side vocabulary and auxiliary notions -/

/-- The cell (r, c) lies on the board and is owned by the given player. -/
def cellOwnedBy (b : Board) (playerId : Nat) (r c : Int) : Prop :=
  0 ≤ r ∧ r < (b.size : Int) ∧ 0 ≤ c ∧ c < (b.size : Int) ∧
  gridGet b.grid r c = playerId

instance (b : Board) (playerId : Nat) (r c : Int) :
    Decidable (cellOwnedBy b playerId r c) := by
  unfold cellOwnedBy; infer_instance

/-- A grid of the stated square dimension. -/
def GridWF (g : List (List Nat)) (n : Nat) : Prop :=
  g.length = n ∧ ∀ row ∈ g, row.length = n

/-- A board whose grid really has the dimensions its size field states. -/
def BoardWF (b : Board) : Prop :=
  GridWF b.grid b.size

instance (g : List (List Nat)) (n : Nat) : Decidable (GridWF g n) := by
  unfold GridWF; infer_instance

instance (b : Board) : Decidable (BoardWF b) := by
  unfold BoardWF; infer_instance

/-- Sum of the cell counts of the used pieces of a list. -/
def sumUsedCells (l : List Piece) : Nat :=
  ((l.filter (fun p => p.used)).map (fun p => p.shape.length)).sum

/-- Boards reachable through the engine API, with arbitrary piece arguments to
placePiece (the API performs no check that the piece value belongs to the
acting player). -/
inductive Reachable : Board → Prop where
  | create : Reachable createBoard
  | start {b b' : Board} {n : Nat} :
      Reachable b → startGame b n = Except.ok b' → Reachable b'
  | place {b b' : Board} {p : Piece} {row col : Int} {playerId : Nat} {now : Int} :
      Reachable b → placePiece b p row col playerId now = Except.ok b' →
      Reachable b'

/-- Boards reachable through the engine API when every placePiece call passes
a piece value drawn from the acting player: the piece id names an unused
stored piece with the same base shape (rotation, flip and other fields may
differ, as the UI mutates only those). -/
inductive ReachableOwn : Board → Prop where
  | create : ReachableOwn createBoard
  | start {b b' : Board} {n : Nat} :
      ReachableOwn b → startGame b n = Except.ok b' → ReachableOwn b'
  | place {b b' : Board} {p : Piece} {row col : Int} {playerId : Nat} {now : Int} :
      ReachableOwn b →
      (∀ pl ∈ b.players, pl.id = playerId →
        ∃ q ∈ pl.pieces, q.id = p.id ∧ q.shape = p.shape ∧ q.used = false) →
      placePiece b p row col playerId now = Except.ok b' →
      ReachableOwn b'

/-! ### Concrete boards and pieces used to instantiate the theorems -/

/-- The single-cell catalog piece. -/
def pieceI1 : Piece :=
  { id := "I1", shape := [(0, 0)], used := false, rotation := 0, flipped := false }

/-- The two-cell catalog piece. -/
def pieceI2 : Piece :=
  { id := "I2", shape := [(0, 0), (1, 0)], used := false, rotation := 0, flipped := false }

/-- A piece value that belongs to no player: its id names no catalog entry. -/
def roguePiece : Piece :=
  { id := "ZZ", shape := [(0, 0)], used := false, rotation := 0, flipped := false }

/-- The four-player started board. -/
def startedBoard4 : Board :=
  match startGame createBoard 4 with
  | Except.ok b => b
  | Except.error _ => createBoard

/-- The started board after player 1 places the single-cell piece at (0, 0). -/
def placedBoard1 : Board :=
  match placePiece startedBoard4 pieceI1 0 0 1 0 with
  | Except.ok b => b
  | Except.error _ => createBoard

/-- The started board with its status forced to finished. -/
def finishedBoard : Board :=
  { startedBoard4 with status := Status.finished }

/-- The board obtained by handing placePiece the rogue piece. -/
def rogueBoard : Board :=
  match placePiece startedBoard4 roguePiece 0 0 1 0 with
  | Except.ok b => b
  | Except.error _ => createBoard

/-- A small board for the adjacency-rule instances: size 3, player 1 owns the
cell (0, 0) and has one used single-cell piece. -/
def smallBoard : Board :=
  { grid := [[1, 0, 0], [0, 0, 0], [0, 0, 0]],
    size := 3,
    players := [ { id := 1, score := 1,
                   pieces := [{ pieceI1 with used := true }], color := "red" } ],
    currentPlayer := 1,
    status := Status.inProgress,
    moveHistory := [],
    lastMove := none }

/-! ### Basic characterizations of the validation helpers -/

theorem isValidPosition_eq_true_iff (row col : Int) (b : Board) :
    isValidPosition row col b = true ↔
      0 ≤ row ∧ row < (b.size : Int) ∧ 0 ≤ col ∧ col < (b.size : Int) := by
  simp [isValidPosition, and_assoc]

theorem touchesPlayerCorner_iff (r c : Int) (b : Board) (pid : Nat) :
    touchesPlayerCorner r c b pid = true ↔
      ∃ r' c' : Int, (r' = r + 1 ∨ r' = r - 1) ∧ (c' = c + 1 ∨ c' = c - 1) ∧
        cellOwnedBy b pid r' c' := by
  unfold touchesPlayerCorner cellOwnedBy
  simp only [List.any_cons, List.any_nil, Bool.or_eq_true, Bool.or_eq_false_iff,
    Bool.and_eq_true, beq_iff_eq, isValidPosition_eq_true_iff]
  constructor
  · rintro (⟨⟨h1, h2, h3, h4⟩, h5⟩ | ⟨⟨h1, h2, h3, h4⟩, h5⟩ |
      ⟨⟨h1, h2, h3, h4⟩, h5⟩ | ⟨⟨h1, h2, h3, h4⟩, h5⟩ | h)
    · exact ⟨r + -1, c + -1, Or.inr (by ring), Or.inr (by ring), h1, h2, h3, h4, h5⟩
    · exact ⟨r + -1, c + 1, Or.inr (by ring), Or.inl (by ring), h1, h2, h3, h4, h5⟩
    · exact ⟨r + 1, c + -1, Or.inl (by ring), Or.inr (by ring), h1, h2, h3, h4, h5⟩
    · exact ⟨r + 1, c + 1, Or.inl (by ring), Or.inl (by ring), h1, h2, h3, h4, h5⟩
    · exact absurd h (by simp)
  · rintro ⟨r', c', hr | hr, hc | hc, h1, h2, h3, h4, h5⟩ <;> subst hr <;> subst hc
    · exact Or.inr (Or.inr (Or.inr (Or.inl ⟨⟨h1, h2, h3, h4⟩, h5⟩)))
    · refine Or.inr (Or.inr (Or.inl ⟨⟨h1, h2, ?_, ?_⟩, ?_⟩)) <;>
        first
          | omega
          | (have : c + -1 = c - 1 := by ring
             rw [this]; exact h5)
    · refine Or.inr (Or.inl ⟨⟨?_, ?_, h3, h4⟩, ?_⟩) <;>
        first
          | omega
          | (have : r + -1 = r - 1 := by ring
             rw [this]; exact h5)
    · refine Or.inl ⟨⟨?_, ?_, ?_, ?_⟩, ?_⟩ <;>
        first
          | omega
          | (have hh : r + -1 = r - 1 ∧ c + -1 = c - 1 := by constructor <;> ring
             rw [hh.1, hh.2]; exact h5)

theorem touchesPlayerEdge_iff (r c : Int) (b : Board) (pid : Nat) :
    touchesPlayerEdge r c b pid = true ↔
      ∃ r' c' : Int,
        (((r' = r + 1 ∨ r' = r - 1) ∧ c' = c) ∨
         (r' = r ∧ (c' = c + 1 ∨ c' = c - 1))) ∧
        cellOwnedBy b pid r' c' := by
  unfold touchesPlayerEdge cellOwnedBy
  simp only [List.any_cons, List.any_nil, Bool.or_eq_true, Bool.and_eq_true,
    beq_iff_eq, isValidPosition_eq_true_iff]
  constructor
  · rintro (⟨⟨h1, h2, h3, h4⟩, h5⟩ | ⟨⟨h1, h2, h3, h4⟩, h5⟩ |
      ⟨⟨h1, h2, h3, h4⟩, h5⟩ | ⟨⟨h1, h2, h3, h4⟩, h5⟩ | h)
    · refine ⟨r + -1, c + 0, Or.inl ⟨Or.inr (by ring), by ring⟩, h1, h2, h3, h4, h5⟩
    · refine ⟨r + 1, c + 0, Or.inl ⟨Or.inl (by ring), by ring⟩, h1, h2, h3, h4, h5⟩
    · refine ⟨r + 0, c + -1, Or.inr ⟨by ring, Or.inr (by ring)⟩, h1, h2, h3, h4, h5⟩
    · refine ⟨r + 0, c + 1, Or.inr ⟨by ring, Or.inl (by ring)⟩, h1, h2, h3, h4, h5⟩
    · exact absurd h (by simp)
  · rintro ⟨r', c', ⟨hr | hr, hc⟩ | ⟨hr, hc | hc⟩, h1, h2, h3, h4, h5⟩
    · refine Or.inr (Or.inl ⟨⟨by omega, by omega, by omega, by omega⟩, ?_⟩)
      have e1 : r + 1 = r' := by omega
      have e2 : c + 0 = c' := by omega
      rw [e1, e2]; exact h5
    · refine Or.inl ⟨⟨by omega, by omega, by omega, by omega⟩, ?_⟩
      have e1 : r + -1 = r' := by omega
      have e2 : c + 0 = c' := by omega
      rw [e1, e2]; exact h5
    · refine Or.inr (Or.inr (Or.inr (Or.inl
        ⟨⟨by omega, by omega, by omega, by omega⟩, ?_⟩)))
      have e1 : r + 0 = r' := by omega
      have e2 : c + 1 = c' := by omega
      rw [e1, e2]; exact h5
    · refine Or.inr (Or.inr (Or.inl ⟨⟨by omega, by omega, by omega, by omega⟩, ?_⟩))
      have e1 : r + 0 = r' := by omega
      have e2 : c + -1 = c' := by omega
      rw [e1, e2]; exact h5

theorem touchesCorner_iff (shape : List (Int × Int)) (row col : Int) (b : Board) :
    touchesCorner shape row col b = true ↔
      ∃ d ∈ shape,
        (row + d.1 = 0 ∨ row + d.1 = (b.size : Int) - 1) ∧
        (col + d.2 = 0 ∨ col + d.2 = (b.size : Int) - 1) := by
  unfold touchesCorner
  simp only [List.any_eq_true, List.any_cons, List.any_nil, Bool.or_eq_true,
    Bool.and_eq_true, beq_iff_eq]
  constructor
  · rintro ⟨d, hd, h⟩
    exact ⟨d, hd, by tauto⟩
  · rintro ⟨d, hd, h⟩
    exact ⟨d, hd, by tauto⟩

theorem canPlacePiece_eq_of_checks
    (b : Board) (p : Piece) (row col : Int) (pid : Nat) (player : Player)
    (hfind : b.players.find? (fun pl => pl.id == pid) = some player)
    (hpu : p.used = false)
    (hcells : (getTransformedShape p).all (fun d =>
        isValidPosition (row + d.1) (col + d.2) b &&
        isCellEmpty (row + d.1) (col + d.2) b) = true) :
    canPlacePiece b p row col pid =
      isValidPlacement b (getTransformedShape p) row col pid := by
  unfold canPlacePiece
  rw [hpu, hfind]
  simp only [Bool.false_eq_true, if_false, hcells, if_true]

/-- Claim C1: for a board, a player that already has a used piece, and a piece
passing the used, bounds and emptiness checks, canPlacePiece returns true iff
some absolute cell of the resolved shape is diagonally adjacent to a cell
owned by the same player and no absolute cell is orthogonally adjacent to a
cell owned by the same player.  Cells of other players impose no constraint:
the right-hand side mentions only cells owned by the acting player. -/
theorem canPlacePiece_adjacency_rule
    (b : Board) (p : Piece) (row col : Int) (pid : Nat) (player : Player)
    (hfind : b.players.find? (fun pl => pl.id == pid) = some player)
    (husedPieces : (player.pieces.filter (fun q => q.used)).length ≠ 0)
    (hpu : p.used = false)
    (hcells : (getTransformedShape p).all (fun d =>
        isValidPosition (row + d.1) (col + d.2) b &&
        isCellEmpty (row + d.1) (col + d.2) b) = true) :
    canPlacePiece b p row col pid = true ↔
      ((∃ d ∈ getTransformedShape p, ∃ r' c' : Int,
          (r' = row + d.1 + 1 ∨ r' = row + d.1 - 1) ∧
          (c' = col + d.2 + 1 ∨ c' = col + d.2 - 1) ∧
          cellOwnedBy b pid r' c') ∧
       ¬ (∃ d ∈ getTransformedShape p, ∃ r' c' : Int,
          (((r' = row + d.1 + 1 ∨ r' = row + d.1 - 1) ∧ c' = col + d.2) ∨
           (r' = row + d.1 ∧ (c' = col + d.2 + 1 ∨ c' = col + d.2 - 1))) ∧
          cellOwnedBy b pid r' c')) := by
  rw [canPlacePiece_eq_of_checks b p row col pid player hfind hpu hcells]
  unfold isValidPlacement
  rw [hfind]
  dsimp only
  rw [if_neg husedPieces]
  simp only [Bool.and_eq_true, Bool.not_eq_true', List.any_eq_false,
    List.any_eq_true, touchesPlayerCorner_iff, touchesPlayerEdge_iff]
  constructor
  · rintro ⟨hex, hall⟩
    refine ⟨hex, ?_⟩
    rintro ⟨d', hd', he⟩
    exact hall d' hd' he
  · rintro ⟨hex, hne⟩
    refine ⟨hex, ?_⟩
    intro d' hd' he
    exact hne ⟨d', hd', he⟩

/-- Claim C1 instance: on a 3 by 3 board where player 1 owns (0, 0) and has a
used piece, placing the single-cell piece at (1, 1) is accepted exactly under
the diagonal-contact and no-edge-contact condition. -/
theorem canPlacePiece_adjacency_rule_instance :
    canPlacePiece smallBoard pieceI1 1 1 1 = true ↔
      ((∃ d ∈ getTransformedShape pieceI1, ∃ r' c' : Int,
          (r' = 1 + d.1 + 1 ∨ r' = 1 + d.1 - 1) ∧
          (c' = 1 + d.2 + 1 ∨ c' = 1 + d.2 - 1) ∧
          cellOwnedBy smallBoard 1 r' c') ∧
       ¬ (∃ d ∈ getTransformedShape pieceI1, ∃ r' c' : Int,
          (((r' = 1 + d.1 + 1 ∨ r' = 1 + d.1 - 1) ∧ c' = 1 + d.2) ∨
           (r' = 1 + d.1 ∧ (c' = 1 + d.2 + 1 ∨ c' = 1 + d.2 - 1))) ∧
          cellOwnedBy smallBoard 1 r' c')) :=
  canPlacePiece_adjacency_rule smallBoard pieceI1 1 1 1
    { id := 1, score := 1, pieces := [{ pieceI1 with used := true }], color := "red" }
    (by decide) (by decide) (by decide) (by decide)

/-- Claim C2: for a player with no used piece and a piece passing the used,
bounds and emptiness checks on a 20 by 20 board, canPlacePiece returns true
iff some absolute cell of the resolved shape is one of the four board
corners. -/
theorem canPlacePiece_first_corner
    (b : Board) (p : Piece) (row col : Int) (pid : Nat) (player : Player)
    (hfind : b.players.find? (fun pl => pl.id == pid) = some player)
    (hzero : (player.pieces.filter (fun q => q.used)).length = 0)
    (hpu : p.used = false)
    (_hsize : b.size = 20)
    (hcells : (getTransformedShape p).all (fun d =>
        isValidPosition (row + d.1) (col + d.2) b &&
        isCellEmpty (row + d.1) (col + d.2) b) = true) :
    canPlacePiece b p row col pid = true ↔
      ∃ d ∈ getTransformedShape p,
        (row + d.1 = 0 ∨ row + d.1 = (b.size : Int) - 1) ∧
        (col + d.2 = 0 ∨ col + d.2 = (b.size : Int) - 1) := by
  rw [canPlacePiece_eq_of_checks b p row col pid player hfind hpu hcells]
  unfold isValidPlacement
  rw [hfind]
  dsimp only
  rw [if_pos hzero, touchesCorner_iff]

/-- Claim C2 instance: on the fresh started board, player 1 placing the
single-cell piece at (0, 0) is accepted exactly under the corner-coverage
condition. -/
theorem canPlacePiece_first_corner_instance :
    canPlacePiece startedBoard4 pieceI1 0 0 1 = true ↔
      ∃ d ∈ getTransformedShape pieceI1,
        ((0 : Int) + d.1 = 0 ∨ (0 : Int) + d.1 = (startedBoard4.size : Int) - 1) ∧
        ((0 : Int) + d.2 = 0 ∨ (0 : Int) + d.2 = (startedBoard4.size : Int) - 1) :=
  canPlacePiece_first_corner startedBoard4 pieceI1 0 0 1
    { id := 1, score := 0, pieces := getAllPieces, color := "red" }
    (by decide) (by decide) (by decide) (by decide) (by decide)

/-- Claim C3: placePiece fails with the IllegalMove error exactly when
canPlacePiece rejects the same arguments.  In this embedding state is passed
explicitly and placePiece builds a fresh board value, so a failing call
leaves the input board untouched by construction, matching the source, which
throws before constructing anything and never assigns into its argument. -/
theorem placePiece_error_iff_invalid :
    ∀ (b : Board) (p : Piece) (row col : Int) (pid : Nat) (now : Int),
      placePiece b p row col pid now = Except.error "Invalid piece placement" ↔
        canPlacePiece b p row col pid = false := by
  intro b p row col pid now
  by_cases h : canPlacePiece b p row col pid = true <;> simp [placePiece, h]

/-- Claim C7: a successful placePiece returns a board distinct from its input
(the history has grown by the new move).  The input value itself is unchanged
by construction of the embedding: the source builds the new grid, player list
and history as fresh copies and never writes into the argument. -/
theorem placePiece_fresh_board :
    ∀ (b : Board) (p : Piece) (row col : Int) (pid : Nat) (now : Int) (b' : Board),
      placePiece b p row col pid now = Except.ok b' →
      b'.moveHistory = b.moveHistory ++
        [{ playerId := pid, pieceId := p.id, position := (row, col),
           shape := getTransformedShape p, timestamp := now }] ∧
      b' ≠ b := by
  intro b p row col pid now b' h
  unfold placePiece at h
  by_cases hc : canPlacePiece b p row col pid = true
  · rw [if_pos hc] at h
    injection h with h
    subst h
    refine ⟨rfl, ?_⟩
    intro heq
    have hlen := congrArg (fun bb => bb.moveHistory.length) heq
    simp at hlen
  · rw [if_neg hc] at h
    cases h

/-- Claim C7 instance: the first placement on the started board yields a new
board value. -/
theorem placePiece_fresh_board_instance :
    placePiece startedBoard4 pieceI1 0 0 1 0 = Except.ok placedBoard1 ∧
    (placedBoard1.moveHistory = startedBoard4.moveHistory ++
      [{ playerId := 1, pieceId := pieceI1.id, position := ((0 : Int), (0 : Int)),
         shape := getTransformedShape pieceI1, timestamp := 0 }] ∧
     placedBoard1 ≠ startedBoard4) :=
  ⟨rfl, placePiece_fresh_board startedBoard4 pieceI1 0 0 1 0 placedBoard1 rfl⟩

/-- Claim C8: on every catalog shape, four rotations return the original
offset set (in fact the original ordered list). -/
theorem rotate_four_times_identity :
    ∀ e ∈ PIECE_SHAPES, ∀ cell : Int × Int,
      (cell ∈ rotatePiece (rotatePiece (rotatePiece (rotatePiece e.2))) ↔
       cell ∈ e.2) := by
  have hall : ∀ e ∈ PIECE_SHAPES,
      rotatePiece (rotatePiece (rotatePiece (rotatePiece e.2))) = e.2 := by decide
  intro e he cell
  rw [hall e he]

/-- Claim C8 instance: four rotations of the F5 shape preserve membership of
the cell (0, 1). -/
theorem rotate_four_times_identity_instance :
    ((0 : Int), (1 : Int)) ∈ rotatePiece (rotatePiece (rotatePiece (rotatePiece
      [((1 : Int), (0 : Int)), (2, 0), (0, 1), (1, 1), (1, 2)]))) ↔
    ((0 : Int), (1 : Int)) ∈ [((1 : Int), (0 : Int)), (2, 0), (0, 1), (1, 1), (1, 2)] :=
  rotate_four_times_identity ("F5", [(1, 0), (2, 0), (0, 1), (1, 1), (1, 2)])
    (by decide) (0, 1)

/-- Claim C9 counterexample: it is not the case that the first cell of every
catalog entry is (0, 0); the X5 entry starts with (1, 0), and so does F5. -/
theorem first_cell_not_always_origin :
    ¬ ∀ e ∈ PIECE_SHAPES, e.2.head? = some ((0 : Int), (0 : Int)) := by decide

/-- Claim C9 amended: in every catalog entry other than X5 and F5 the first
cell of the ordered offset list is (0, 0); the X5 and F5 entries start with
(1, 0). -/
theorem first_cell_origin_except_X5_F5 :
    (∀ e ∈ PIECE_SHAPES, e.1 ≠ "X5" → e.1 ≠ "F5" →
      e.2.head? = some ((0 : Int), (0 : Int))) ∧
    (∀ e ∈ PIECE_SHAPES, (e.1 = "X5" ∨ e.1 = "F5") →
      e.2.head? = some ((1 : Int), (0 : Int))) := by decide

/-- Claim C9 amended instance: the I2 entry starts with (0, 0). -/
theorem first_cell_origin_except_X5_F5_instance :
    ("I2", [((0 : Int), (0 : Int)), (1, 0)]) ∈ PIECE_SHAPES ∧
    List.head? [((0 : Int), (0 : Int)), (1, 0)] = some ((0 : Int), (0 : Int)) :=
  ⟨by decide,
   first_cell_origin_except_X5_F5.1 ("I2", [(0, 0), (1, 0)]) (by decide)
     (by decide) (by decide)⟩

/-- Claim C10: neither canPlacePiece nor placePiece reads currentPlayer, so
the engine does not enforce turn order; concretely, on the started board with
currentPlayer 1, player 2 may successfully place a piece. -/
theorem turn_order_not_enforced :
    (∀ (b : Board) (p : Piece) (row col : Int) (pid cp : Nat),
      canPlacePiece { b with currentPlayer := cp } p row col pid =
        canPlacePiece b p row col pid) ∧
    (∀ (b : Board) (p : Piece) (row col : Int) (pid cp : Nat) (now : Int),
      placePiece { b with currentPlayer := cp } p row col pid now =
        placePiece b p row col pid now) ∧
    startedBoard4.currentPlayer = 1 ∧
    (placePiece startedBoard4 pieceI1 0 19 2 0).isOk = true := by
  refine ⟨fun b p row col pid cp => rfl,
          fun b p row col pid cp now => rfl, rfl, by decide⟩

/-! ### Inversion lemmas for the two transition operations -/

theorem startGame_ok_inversion {b b' : Board} {n : Nat}
    (h : startGame b n = Except.ok b') :
    b' = { b with
      players := b.players.take n,
      currentPlayer := 1,
      status := Status.inProgress } := by
  unfold startGame at h
  by_cases hcond : (n < 2 || n > 4) = true
  · rw [if_pos hcond] at h; cases h
  · rw [if_neg hcond] at h; injection h with h; exact h.symm

theorem placePiece_ok_iff {b : Board} {p : Piece} {row col : Int} {pid : Nat}
    {now : Int} {b' : Board} :
    placePiece b p row col pid now = Except.ok b' ↔
      canPlacePiece b p row col pid = true ∧
      b' = { b with
        grid := stampShape b.grid (getTransformedShape p) row col pid,
        players := b.players.map fun player =>
          if player.id == pid then
            { player with
              pieces := player.pieces.map fun q =>
                if q.id == p.id then { q with used := true } else q,
              score := player.score + (getTransformedShape p).length }
          else player,
        moveHistory := b.moveHistory ++
          [{ playerId := pid, pieceId := p.id, position := (row, col),
             shape := getTransformedShape p, timestamp := now }],
        lastMove := some
          { playerId := pid, pieceId := p.id, position := (row, col),
            shape := getTransformedShape p, timestamp := now },
        currentPlayer := getNextPlayer b pid } := by
  unfold placePiece
  by_cases hc : canPlacePiece b p row col pid = true
  · rw [if_pos hc]
    constructor
    · intro h; injection h with h; exact ⟨hc, h.symm⟩
    · rintro ⟨-, rfl⟩; rfl
  · rw [if_neg hc]
    constructor
    · intro h; cases h
    · rintro ⟨h, -⟩; exact absurd h hc

/-- Claim C5 counterexample: on a board whose status is finished, a placement
passing validation succeeds instead of being rejected. -/
theorem placePiece_on_finished_succeeds :
    finishedBoard.status = Status.finished ∧
    (placePiece finishedBoard pieceI1 0 0 1 0).isOk = true :=
  ⟨rfl, by decide⟩

/-- Claim C5 amended: the engine never produces a board with status finished
(no operation sets it), and placePiece does not consult the status at all:
its success is unchanged when the status is forced to finished.  So a
hand-built finished board can still be mutated, but no reachable board is
finished. -/
theorem finished_unreachable_status_ignored :
    (∀ b : Board, Reachable b → b.status ≠ Status.finished) ∧
    (∀ (b : Board) (p : Piece) (row col : Int) (pid : Nat) (now : Int),
      (placePiece { b with status := Status.finished } p row col pid now).isOk =
        (placePiece b p row col pid now).isOk) := by
  constructor
  · intro b hb
    induction hb with
    | create => decide
    | start h1 h2 ih =>
      rw [startGame_ok_inversion h2]
      intro h
      cases h
    | place h1 h2 ih =>
      obtain ⟨-, rfl⟩ := placePiece_ok_iff.mp h2
      exact ih
  · intro b p row col pid now
    simp only [placePiece]
    rw [show canPlacePiece { b with status := Status.finished } p row col pid =
          canPlacePiece b p row col pid from rfl]
    cases hc : canPlacePiece b p row col pid <;> simp [hc, Except.isOk]
    rfl

/-- Claim C5 amended instance: the fresh board is not finished. -/
theorem finished_unreachable_status_ignored_instance :
    createBoard.status ≠ Status.finished :=
  finished_unreachable_status_ignored.1 createBoard Reachable.create

/-! ### Grid update lemmas -/

theorem getD_set_self {α : Type} (l : List α) (i : Nat) (v d : α)
    (h : i < l.length) : (l.set i v).getD i d = v := by
  simp [List.getD_eq_getElem?_getD, List.getElem?_set_self', h]

theorem getD_set_ne {α : Type} (l : List α) {i j : Nat} (v d : α)
    (h : i ≠ j) : (l.set i v).getD j d = l.getD j d := by
  simp [List.getD_eq_getElem?_getD, List.getElem?_set_ne h]

theorem getD_mem {α : Type} (l : List α) (i : Nat) (d : α)
    (h : i < l.length) : l.getD i d ∈ l := by
  rw [List.getD_eq_getElem?_getD]
  simp [List.getElem?_eq_getElem h]

theorem GridWF_setCell {g : List (List Nat)} {n : Nat} (hw : GridWF g n)
    (r c : Int) (v : Nat) : GridWF (setCell g r c v) n := by
  obtain ⟨hlen, hrows⟩ := hw
  by_cases hr : r.toNat < g.length
  · refine ⟨by simp [setCell, hlen], ?_⟩
    intro rowl hmem
    rcases List.mem_or_eq_of_mem_set hmem with h | h
    · exact hrows _ h
    · subst h
      rw [List.length_set]
      exact hrows _ (getD_mem g r.toNat [] hr)
  · unfold setCell
    rw [List.set_eq_of_length_le (by omega)]
    exact ⟨hlen, hrows⟩

theorem gridGet_setCell {g : List (List Nat)} {n : Nat} (hw : GridWF g n)
    {a c : Int} (ha0 : 0 ≤ a) (han : a < (n : Int)) (hc0 : 0 ≤ c)
    (hcn : c < (n : Int)) (v : Nat) (r q : Int) (hr0 : 0 ≤ r) (hq0 : 0 ≤ q) :
    gridGet (setCell g a c v) r q = if r = a ∧ q = c then v else gridGet g r q := by
  obtain ⟨hlen, hrows⟩ := hw
  have haLt : a.toNat < g.length := by omega
  have hrowlen : (g.getD a.toNat []).length = n :=
    hrows _ (getD_mem g a.toNat [] haLt)
  by_cases hre : r = a
  · subst hre
    unfold gridGet setCell
    rw [getD_set_self g r.toNat _ [] haLt]
    by_cases hqe : q = c
    · subst hqe
      rw [if_pos ⟨rfl, rfl⟩]
      exact getD_set_self _ q.toNat v 0 (by omega)
    · rw [if_neg (fun hh => hqe hh.2)]
      exact getD_set_ne _ v 0 (by omega)
  · rw [if_neg (fun hh => hre hh.1)]
    unfold gridGet setCell
    rw [getD_set_ne g _ [] (by omega)]

theorem gridGet_stampShape {n : Nat} (shape : List (Int × Int)) (row col : Int)
    (v : Nat) :
    ∀ g : List (List Nat), GridWF g n →
    (∀ d ∈ shape, 0 ≤ row + d.1 ∧ row + d.1 < (n : Int) ∧
       0 ≤ col + d.2 ∧ col + d.2 < (n : Int)) →
    ∀ r q : Int, 0 ≤ r → 0 ≤ q →
    gridGet (stampShape g shape row col v) r q =
      if ∃ d ∈ shape, r = row + d.1 ∧ q = col + d.2 then v else gridGet g r q := by
  induction shape with
  | nil =>
    intro g hw hb r q hr hq
    simp [stampShape]
  | cons d t ih =>
    intro g hw hb r q hr hq
    have hdb := hb d (List.mem_cons_self d t)
    have hstamp : stampShape g (d :: t) row col v =
        stampShape (setCell g (row + d.1) (col + d.2) v) t row col v := rfl
    rw [hstamp,
      ih (setCell g (row + d.1) (col + d.2) v)
        (GridWF_setCell hw (row + d.1) (col + d.2) v)
        (fun d' hd' => hb d' (List.mem_cons_of_mem d hd')) r q hr hq]
    by_cases h1 : ∃ d' ∈ t, r = row + d'.1 ∧ q = col + d'.2
    · rw [if_pos h1]
      obtain ⟨d', hd', hh⟩ := h1
      rw [if_pos ⟨d', List.mem_cons_of_mem d hd', hh⟩]
    · rw [if_neg h1,
        gridGet_setCell hw hdb.1 hdb.2.1 hdb.2.2.1 hdb.2.2.2 v r q hr hq]
      by_cases h2 : r = row + d.1 ∧ q = col + d.2
      · rw [if_pos h2, if_pos ⟨d, List.mem_cons_self d t, h2⟩]
      · rw [if_neg h2, if_neg ?_]
        rintro ⟨d', hd', hh⟩
        rcases List.mem_cons.mp hd' with rfl | hd'
        · exact h2 hh
        · exact h1 ⟨d', hd', hh⟩

/-! ### Extraction lemmas for canPlacePiece -/

theorem isCellEmpty_eq_true_iff (r c : Int) (b : Board) :
    isCellEmpty r c b = true ↔
      isValidPosition r c b = true ∧ gridGet b.grid r c = 0 := by
  unfold isCellEmpty
  by_cases h : isValidPosition r c b = true <;> simp [h]

theorem canPlacePiece_cells {b : Board} {p : Piece} {row col : Int} {pid : Nat}
    (h : canPlacePiece b p row col pid = true) :
    ∀ d ∈ getTransformedShape p,
      (0 ≤ row + d.1 ∧ row + d.1 < (b.size : Int) ∧
       0 ≤ col + d.2 ∧ col + d.2 < (b.size : Int)) ∧
      gridGet b.grid (row + d.1) (col + d.2) = 0 := by
  unfold canPlacePiece at h
  by_cases hpu : p.used = true
  · rw [if_pos hpu] at h; cases h
  · rw [if_neg hpu] at h
    cases hfind : b.players.find? (fun pl => pl.id == pid) with
    | none => rw [hfind] at h; cases h
    | some player =>
      rw [hfind] at h
      dsimp only at h
      by_cases hall : ((getTransformedShape p).all fun d =>
          isValidPosition (row + d.1) (col + d.2) b &&
          isCellEmpty (row + d.1) (col + d.2) b) = true
      · intro d hd
        have hcell := List.all_eq_true.mp hall d hd
        rw [Bool.and_eq_true] at hcell
        have hvalid := (isValidPosition_eq_true_iff _ _ b).mp hcell.1
        have hempty := ((isCellEmpty_eq_true_iff _ _ b).mp hcell.2).2
        exact ⟨hvalid, hempty⟩
      · rw [if_neg hall] at h; cases h

/-! ### Player list and turn order lemmas -/

theorem find?_map_id_pred (l : List Player) (pid : Nat) (g : Player → Player)
    (hg : ∀ pl, (g pl).id = pl.id) :
    (l.map g).find? (fun pl => pl.id == pid) =
      (l.find? (fun pl => pl.id == pid)).map g := by
  induction l with
  | nil => rfl
  | cons a t ih =>
    rw [List.map_cons, List.find?_cons, List.find?_cons]
    have hge : ((g a).id == pid) = (a.id == pid) := by rw [hg a]
    cases hpa : (a.id == pid) <;> simp [hpa, hge, ih]

theorem jsIndexOf_spec {a : Nat} {l : List Nat} (h : a ∈ l) :
    ∃ i : Nat, jsIndexOf a l = (i : Int) ∧ l[i]? = some a ∧
      ∀ j < i, l[j]? ≠ some a := by
  induction l with
  | nil => cases h
  | cons x t ih =>
    by_cases hx : (x == a) = true
    · refine ⟨0, ?_, ?_, ?_⟩
      · unfold jsIndexOf; rw [if_pos hx]; rfl
      · rw [beq_iff_eq] at hx; subst hx; simp
      · intro j hj; omega
    · have hat : a ∈ t := by
        rcases List.mem_cons.mp h with rfl | ht
        · rw [beq_iff_eq] at hx; exact absurd rfl hx
        · exact ht
      obtain ⟨i, h1, h2, h3⟩ := ih hat
      refine ⟨i + 1, ?_, ?_, ?_⟩
      · unfold jsIndexOf
        rw [if_neg hx]
        dsimp only
        rw [h1, if_neg (by omega)]
        push_cast
        ring
      · simpa using h2
      · intro j hj
        cases j with
        | zero =>
          simp only [List.getElem?_cons_zero, ne_eq, Option.some.injEq]
          rw [beq_iff_eq] at hx
          exact fun hh => hx hh
        | succ k =>
          simp only [List.getElem?_cons_succ]
          exact h3 k (by omega)

theorem getNextPlayer_eq {b : Board} {pid : Nat} {i : Nat}
    (hidx : jsIndexOf pid (b.players.map (fun pl => pl.id)) = (i : Int)) :
    getNextPlayer b pid =
      (b.players.map (fun pl => pl.id)).getD
        ((i + 1) % (b.players.map (fun pl => pl.id)).length) 0 := by
  simp only [getNextPlayer]
  rw [hidx]
  congr 1

/-- Claim C4: on a well-formed board, when canPlacePiece accepts, placePiece
returns a board in which exactly the absolute cells of the resolved shape are
stamped with the player id (all other in-bounds cells unchanged), the pieces
bearing the placed piece id are marked used in the acting player record and
the score grows by the resolved cell count, the move record is appended to
the history and set as last move, and the current player becomes the
round-robin successor of the acting player in the ordered id list. -/
theorem placePiece_success_postcondition
    (b : Board) (p : Piece) (row col : Int) (pid : Nat) (now : Int)
    (player : Player)
    (hwf : BoardWF b)
    (hfind : b.players.find? (fun pl => pl.id == pid) = some player)
    (hcan : canPlacePiece b p row col pid = true) :
    ∃ b', placePiece b p row col pid now = Except.ok b' ∧
      (∀ r c : Int, 0 ≤ r → r < (b.size : Int) → 0 ≤ c → c < (b.size : Int) →
        gridGet b'.grid r c =
          if ∃ d ∈ getTransformedShape p, r = row + d.1 ∧ c = col + d.2 then pid
          else gridGet b.grid r c) ∧
      b'.players.find? (fun pl => pl.id == pid) = some
        { player with
          pieces := player.pieces.map fun q =>
            if q.id == p.id then { q with used := true } else q,
          score := player.score + (getTransformedShape p).length } ∧
      b'.moveHistory = b.moveHistory ++
        [{ playerId := pid, pieceId := p.id, position := (row, col),
           shape := getTransformedShape p, timestamp := now }] ∧
      b'.lastMove = some
        { playerId := pid, pieceId := p.id, position := (row, col),
          shape := getTransformedShape p, timestamp := now } ∧
      (∃ i : Nat,
        (b.players.map (fun pl => pl.id))[i]? = some pid ∧
        (∀ j < i, (b.players.map (fun pl => pl.id))[j]? ≠ some pid) ∧
        b'.currentPlayer =
          (b.players.map (fun pl => pl.id)).getD
            ((i + 1) % (b.players.map (fun pl => pl.id)).length) 0) := by
  have hcells := canPlacePiece_cells hcan
  have hwf' : GridWF b.grid b.size := hwf
  refine ⟨_, placePiece_ok_iff.mpr ⟨hcan, rfl⟩, ?_, ?_, rfl, rfl, ?_⟩
  · intro r c hr hrlt hc hclt
    exact gridGet_stampShape (getTransformedShape p) row col pid b.grid hwf'
      (fun d hd => (hcells d hd).1) r c hr hc
  · have hg : ∀ pl : Player, ((fun player =>
        if player.id == pid then
          { player with
            pieces := player.pieces.map fun q =>
              if q.id == p.id then { q with used := true } else q,
            score := player.score + (getTransformedShape p).length }
        else player) pl).id = pl.id := by
      intro pl
      by_cases hh : (pl.id == pid) = true <;> simp [hh]
    have hpid : (player.id == pid) = true := by
      simpa using List.find?_some hfind
    have hpid2 : player.id = pid := by simpa using hpid
    dsimp only
    rw [find?_map_id_pred b.players pid _ hg, hfind]
    simp [hpid, hpid2]
  · have hmem : player ∈ b.players := List.mem_of_find?_eq_some hfind
    have hpid : player.id = pid := by
      simpa using List.find?_some hfind
    have hpin : pid ∈ b.players.map (fun pl => pl.id) :=
      hpid ▸ List.mem_map_of_mem _ hmem
    obtain ⟨i, h1, h2, h3⟩ := jsIndexOf_spec hpin
    exact ⟨i, h2, h3, getNextPlayer_eq h1⟩

/-- Claim C4 instance: the first placement of the single-cell piece at (0, 0)
by player 1 on the started board satisfies the full postcondition. -/
theorem placePiece_success_postcondition_instance :
    ∃ b', placePiece startedBoard4 pieceI1 0 0 1 0 = Except.ok b' ∧
      (∀ r c : Int, 0 ≤ r → r < (startedBoard4.size : Int) →
          0 ≤ c → c < (startedBoard4.size : Int) →
        gridGet b'.grid r c =
          if ∃ d ∈ getTransformedShape pieceI1, r = 0 + d.1 ∧ c = 0 + d.2 then 1
          else gridGet startedBoard4.grid r c) ∧
      b'.players.find? (fun pl => pl.id == 1) = some
        { id := 1, score := 0 + (getTransformedShape pieceI1).length,
          pieces := getAllPieces.map fun q =>
            if q.id == pieceI1.id then { q with used := true } else q,
          color := "red" } ∧
      b'.moveHistory = startedBoard4.moveHistory ++
        [{ playerId := 1, pieceId := pieceI1.id, position := ((0 : Int), (0 : Int)),
           shape := getTransformedShape pieceI1, timestamp := 0 }] ∧
      b'.lastMove = some
        { playerId := 1, pieceId := pieceI1.id, position := ((0 : Int), (0 : Int)),
          shape := getTransformedShape pieceI1, timestamp := 0 } ∧
      (∃ i : Nat,
        (startedBoard4.players.map (fun pl => pl.id))[i]? = some 1 ∧
        (∀ j < i, (startedBoard4.players.map (fun pl => pl.id))[j]? ≠ some 1) ∧
        b'.currentPlayer =
          (startedBoard4.players.map (fun pl => pl.id)).getD
            ((i + 1) % (startedBoard4.players.map (fun pl => pl.id)).length) 0) :=
  placePiece_success_postcondition startedBoard4 pieceI1 0 0 1 0
    { id := 1, score := 0, pieces := getAllPieces, color := "red" }
    (by decide) (by decide) (by decide)

/-! ### Shape length and score bookkeeping lemmas -/

theorem length_rotatePiece (shape : List (Int × Int)) :
    (rotatePiece shape).length = shape.length := by
  simp [rotatePiece]

theorem length_flipPiece (shape : List (Int × Int)) :
    (flipPiece shape).length = shape.length := by
  simp [flipPiece]

theorem length_applyRotations (n : Nat) :
    ∀ shape : List (Int × Int), (applyRotations n shape).length = shape.length := by
  induction n with
  | zero => intro shape; rfl
  | succ m ih =>
    intro shape
    rw [show applyRotations (m + 1) shape = applyRotations m (rotatePiece shape) from rfl,
      ih (rotatePiece shape), length_rotatePiece]

theorem length_getTransformedShape (p : Piece) :
    (getTransformedShape p).length = p.shape.length := by
  unfold getTransformedShape
  by_cases hf : p.flipped = true <;>
    simp [hf, length_flipPiece, length_applyRotations]

theorem sumUsedCells_cons (a : Piece) (t : List Piece) :
    sumUsedCells (a :: t) =
      (if a.used then a.shape.length else 0) + sumUsedCells t := by
  unfold sumUsedCells
  rw [List.filter_cons]
  cases hau : a.used <;> simp [hau]

theorem sumUsedCells_mark (pidStr : String) :
    ∀ (l : List Piece) (q : Piece),
      (l.map (fun d => d.id)).Nodup → q ∈ l → q.id = pidStr → q.used = false →
      sumUsedCells (l.map fun d =>
        if d.id == pidStr then { d with used := true } else d) =
        sumUsedCells l + q.shape.length := by
  intro l
  induction l with
  | nil => intro q _ hq _ _; cases hq
  | cons a t ih =>
    intro q hnd hq hid hu
    rw [List.map_cons, List.nodup_cons] at hnd
    obtain ⟨hna, hndt⟩ := hnd
    rw [List.map_cons]
    rcases List.mem_cons.mp hq with heq | hqt
    · subst heq
      have hmark : (q.id == pidStr) = true := by simpa using hid
      have hrest : (t.map fun d =>
          if d.id == pidStr then { d with used := true } else d) = t := by
        have hfun : ∀ d ∈ t,
            (if d.id == pidStr then { d with used := true } else d) = d := by
          intro d hd
          have hne : ¬ ((d.id == pidStr) = true) := by
            rw [beq_iff_eq]
            intro hdp
            apply hna
            rw [List.mem_map]
            exact ⟨d, hd, by rw [hdp, ← hid]⟩
          rw [if_neg hne]
        have h1 : t.map (fun d =>
            if d.id == pidStr then { d with used := true } else d) = t.map id :=
          List.map_congr_left hfun
        simpa using h1
      simp only [hmark, if_true]
      rw [hrest, sumUsedCells_cons, sumUsedCells_cons, hu]
      simp only [if_true, if_false, Bool.false_eq_true]
      omega
    · have hane : ¬ ((a.id == pidStr) = true) := by
        rw [beq_iff_eq]
        intro hap
        apply hna
        rw [List.mem_map]
        exact ⟨q, hqt, by rw [hid, ← hap]⟩
      simp only [if_neg hane]
      rw [sumUsedCells_cons, sumUsedCells_cons, ih q hndt hqt hid hu]
      omega

/-- A single successful placePiece preserves the per-player invariant of
distinct piece ids and score equal to the used cell count, provided the
placed piece value corresponds to an unused stored piece of the acting
player (same id, same base shape). -/
theorem placePiece_preserves_inv
    (b : Board) (p : Piece) (row col : Int) (pid : Nat) (now : Int) (b' : Board)
    (hok : placePiece b p row col pid now = Except.ok b')
    (hpieces : ∀ pl ∈ b.players, pl.id = pid →
      ∃ q ∈ pl.pieces, q.id = p.id ∧ q.shape = p.shape ∧ q.used = false)
    (hinv : ∀ pl ∈ b.players,
      (pl.pieces.map (fun q => q.id)).Nodup ∧ pl.score = sumUsedCells pl.pieces) :
    ∀ pl ∈ b'.players,
      (pl.pieces.map (fun q => q.id)).Nodup ∧ pl.score = sumUsedCells pl.pieces := by
  obtain ⟨hcan, rfl⟩ := placePiece_ok_iff.mp hok
  intro pl' hpl'
  have hpl2 : pl' ∈ b.players.map fun player =>
      if player.id == pid then
        { player with
          pieces := player.pieces.map fun q =>
            if q.id == p.id then { q with used := true } else q,
          score := player.score + (getTransformedShape p).length }
      else player := hpl'
  rw [List.mem_map] at hpl2
  obtain ⟨pl, hpl, rfl⟩ := hpl2
  obtain ⟨hnd, hscore⟩ := hinv pl hpl
  by_cases hcase : (pl.id == pid) = true
  · have hplid : pl.id = pid := by simpa using hcase
    obtain ⟨q0, hq0, hq0id, hq0shape, hq0unused⟩ := hpieces pl hpl hplid
    simp only [hcase, if_true]
    constructor
    · have hids : (pl.pieces.map fun q =>
          if q.id == p.id then { q with used := true } else q).map (fun q => q.id) =
          pl.pieces.map (fun q => q.id) := by
        rw [List.map_map]
        apply List.map_congr_left
        intro d hd
        by_cases hdp : d.id = p.id <;> simp [hdp]
      rw [hids]
      exact hnd
    · dsimp only
      rw [hscore, length_getTransformedShape,
        sumUsedCells_mark p.id pl.pieces q0 hnd hq0 hq0id hq0unused, hq0shape]
  · simp only [hcase, if_false]
    exact ⟨hnd, hscore⟩

/-- The per-player invariant holds on every board reachable with piece
arguments drawn from the acting player. -/
theorem reachableOwn_players_inv :
    ∀ b : Board, ReachableOwn b → ∀ pl ∈ b.players,
      (pl.pieces.map (fun q => q.id)).Nodup ∧ pl.score = sumUsedCells pl.pieces := by
  intro b hb
  induction hb with
  | create => decide
  | start h1 h2 ih =>
    obtain rfl := startGame_ok_inversion h2
    intro pl hpl
    exact ih pl (List.mem_of_mem_take hpl)
  | place h1 h2 h3 ih =>
    exact placePiece_preserves_inv _ _ _ _ _ _ _ h3 h2 ih

/-- Claim C6 counterexample: handing placePiece a piece value whose id names
no stored piece produces a reachable board (in the unrestricted sense of the
engine API) on which the score of player 1 is 1 while the used pieces of
player 1 sum to 0 cells. -/
theorem score_invariant_broken_by_foreign_piece :
    Reachable rogueBoard ∧
    (rogueBoard.players.find? (fun pl => pl.id == 1)).map
      (fun pl => (pl.score, sumUsedCells pl.pieces)) = some (1, 0) := by
  constructor
  · exact @Reachable.place startedBoard4 rogueBoard roguePiece 0 0 1 0
      (@Reachable.start createBoard startedBoard4 4 Reachable.create rfl) rfl
  · decide

/-- Claim C6 amended: on every board reachable from createBoard via startGame
and successful placePiece calls whose piece argument is drawn from the acting
player (its id names an unused stored piece with the same base shape), every
player has score equal to the summed cell counts of its used pieces. -/
theorem score_invariant_for_inventory_pieces :
    ∀ b : Board, ReachableOwn b → ∀ pl ∈ b.players,
      pl.score = sumUsedCells pl.pieces :=
  fun b hb pl hpl => (reachableOwn_players_inv b hb pl hpl).2

/-- Claim C6 amended instance: on the fresh board, player 1 satisfies the
score invariant. -/
theorem score_invariant_for_inventory_pieces_instance :
    ({ id := 1, score := 0, pieces := getAllPieces, color := "red" } : Player).score =
      sumUsedCells
        ({ id := 1, score := 0, pieces := getAllPieces, color := "red" } : Player).pieces :=
  score_invariant_for_inventory_pieces createBoard ReachableOwn.create
    { id := 1, score := 0, pieces := getAllPieces, color := "red" } (by decide)

end BentoBlocks
